import Mathlib

/-!
Verification of the greedy geometric routing simulator (GraphSimulator).

The embedding models the core of the simulator: the node/packet/route data
model, the five next-hop selection strategies of `getNextNode`, the step
function of `simulateRoutingStep`, `startRoutingSimulation`,
`updateNodePosition`, and the route statistics computation.

Modelling conventions:
* Coordinates are rationals (`ℚ`); the source's floating-point numbers are
  modelled as exact arithmetic.
* The source compares Euclidean distances `Math.sqrt(dx*dx+dy*dy)`; since
  `Real.sqrt` is strictly monotone on nonnegative arguments, those
  comparisons are embedded as comparisons of squared distances (`dist2`),
  and the bridge lemmas `distance_lt_distance_iff` / `distance_le_distance_iff`
  relate them to the real Euclidean `distance`.
* The Delaunay triangulation is provided by the external `d3-delaunay`
  library (not part of this repository); the neighbor enumeration
  `candidates = neighborIndices.map(i => nodes[i])` is abstracted as a
  parameter `neighborsOf : Node → List Node`.
* `Math.random()`-driven choices (`Math.floor(Math.random()*len)` always
  yields an index `< len`) are modelled by an arbitrary injected index
  taken modulo the list length.
* `Math.atan2` is modelled by `Complex.arg` (same range `(-π, π]`).
-/

/-- A node of the simulated network (source `interface Node`). -/
structure Node where
  id : ℕ
  x : ℚ
  y : ℚ
  color : String
deriving DecidableEq, Repr

/-- The packet being routed (source `interface Packet`). -/
structure Packet where
  currentNode : Node
  destination : Node
deriving DecidableEq, Repr

/-- One traversed segment of the route (source `interface RouteEdge`). -/
structure RouteEdge where
  x1 : ℚ
  y1 : ℚ
  x2 : ℚ
  y2 : ℚ
  startId : ℕ
  endId : ℕ
  color : String
deriving DecidableEq, Repr

/-- The routing strategies (source `type Strategy`). -/
inductive Strategy where
  | closestToDestination
  | angleClosest
  | smallestJump
  | firstLeft
  | random
deriving DecidableEq, Repr

def svgWidth : ℚ := 600
def svgHeight : ℚ := 400
def baseRadius : ℚ := 5

def inactiveColor : String := "grey"

/-- Squared Euclidean distance between two nodes.  The source's
`distance = Math.sqrt(dx*dx + dy*dy)`; all the source's *comparisons* of
distances are equivalent to comparisons of these squares. -/
def dist2 (a b : Node) : ℚ :=
  (a.x - b.x) * (a.x - b.x) + (a.y - b.y) * (a.y - b.y)

/-- Euclidean distance between two nodes, exactly the source's `distance`. -/
noncomputable def distance (a b : Node) : ℝ :=
  Real.sqrt ((dist2 a b : ℚ) : ℝ)

/-- Strategy `closestToDestination` (source: `candidates.reduce` keeping the
candidate strictly closer to the destination, first one wins on ties). -/
def selectClosest (destination : Node) (candidates : List Node) : Option Node :=
  candidates.foldl
    (fun best candidate =>
      match best with
      | none => some candidate
      | some b =>
          if dist2 candidate destination < dist2 b destination then some candidate
          else some b)
    none

/-- Strategy `smallestJump` (source: filter the candidates strictly closer to
the destination than the current node, then `reduce` keeping the candidate
with the strictly smaller jump from the current node). -/
def selectSmallestJump (current destination : Node) (candidates : List Node) :
    Option Node :=
  let validCandidates := candidates.filter
    (fun candidate => dist2 candidate destination < dist2 current destination)
  if validCandidates.length = 0 then none
  else
    validCandidates.foldl
      (fun best candidate =>
        match best with
        | none => some candidate
        | some b =>
            if dist2 current candidate < dist2 current b then some candidate
            else some b)
      none

/-- Strategy `random` (source: filter out the candidates whose edge to the
current node was already traversed in either direction, then pick a random
index; the randomness `Math.floor(Math.random()*length)` is modelled by the
injected index `k` modulo the length). -/
def selectRandom (current : Node) (routeEdges : List RouteEdge)
    (candidates : List Node) (k : ℕ) : Option Node :=
  let validCandidates := candidates.filter
    (fun candidate => !(routeEdges.any (fun edge =>
      (edge.startId == current.id && edge.endId == candidate.id) ||
      (edge.startId == candidate.id && edge.endId == current.id))))
  if validCandidates.length = 0 then none
  else validCandidates[k % validCandidates.length]?

/-- The source's `Math.atan2(y, x)`, modelled as the argument of the complex
number `x + y*I`; both have range `(-π, π]` and agree on real inputs. -/
noncomputable def atan2 (y x : ℚ) : ℝ :=
  Complex.arg ⟨(x : ℝ), (y : ℝ)⟩

/-- The source's normalization `while (a <= -π) a += 2π; while (a > π) a -= 2π`.
Its argument is always a difference of two `atan2` values, hence lies in
`(-2π, 2π)`, where a single adjustment is exactly what the loops perform. -/
noncomputable def normalizeAngle (θ : ℝ) : ℝ :=
  if θ ≤ -Real.pi then θ + 2 * Real.pi
  else if θ > Real.pi then θ - 2 * Real.pi
  else θ

/-- The relative angle of a candidate with respect to the baseline bearing
toward the destination, as computed in the `firstLeft` branch. -/
noncomputable def relativeAngle (current destination candidate : Node) : ℝ :=
  let baselineAngle := atan2 (destination.y - current.y) (destination.x - current.x)
  let candidateAngle := atan2 (candidate.y - current.y) (candidate.x - current.x)
  normalizeAngle (candidateAngle - baselineAngle)

/-- The angular deviation used by the `angleClosest` branch: absolute
difference of bearings, folded into `[0, π]`. -/
noncomputable def angleDiff (current destination candidate : Node) : ℝ :=
  let baselineAngle := atan2 (destination.y - current.y) (destination.x - current.x)
  let candidateAngle := atan2 (candidate.y - current.y) (candidate.x - current.x)
  let diff := |candidateAngle - baselineAngle|
  if diff > Real.pi then 2 * Real.pi - diff else diff

/-- Strategy `angleClosest` (source: `candidates.reduce` keeping the candidate
with strictly smaller angular deviation from the baseline bearing). -/
noncomputable def selectAngleClosest (current destination : Node)
    (candidates : List Node) : Option Node :=
  candidates.foldl
    (fun best candidate =>
      match best with
      | none => some candidate
      | some b =>
          if angleDiff current destination candidate < angleDiff current destination b
          then some candidate else some b)
    none

/-- Strategy `firstLeft` (source: annotate each candidate with its relative
angle; if some candidate has a strictly positive relative angle, `reduce` the
positive ones keeping the strictly smaller angle, else `reduce` all candidates
keeping the strictly larger angle).  The source's `reduce` without an initial
value requires a non-empty list (guaranteed by the caller's guard); the
unreachable empty case returns `none`. -/
noncomputable def selectFirstLeft (current destination : Node)
    (candidates : List Node) : Option Node :=
  let candidatesWithAngle := candidates.map
    (fun candidate => (candidate, relativeAngle current destination candidate))
  let leftCandidates := candidatesWithAngle.filter (fun c => decide (0 < c.2))
  match leftCandidates with
  | best :: rest =>
      some ((rest.foldl
        (fun best currentItem =>
          if currentItem.2 < best.2 then currentItem else best) best).1)
  | [] =>
      match candidatesWithAngle with
      | best :: rest =>
          some ((rest.foldl
            (fun best currentItem =>
              if best.2 < currentItem.2 then currentItem else best) best).1)
      | [] => none

/-- The source's `getNextNode`.  The Delaunay adjacency (external library
`d3-delaunay`) is abstracted as `neighborsOf`; `k` models the random draw
used by the `random` strategy. -/
noncomputable def getNextNode (nodes : List Node) (strategy : Strategy)
    (routeEdges : List RouteEdge) (neighborsOf : Node → List Node)
    (current destination : Node) (k : ℕ) : Option Node :=
  if nodes.length < 3 then none
  else
    let candidates := neighborsOf current
    if candidates.length = 0 then none
    else
      match strategy with
      | .closestToDestination => selectClosest destination candidates
      | .smallestJump => selectSmallestJump current destination candidates
      | .angleClosest => selectAngleClosest current destination candidates
      | .firstLeft => selectFirstLeft current destination candidates
      | .random => selectRandom current routeEdges candidates k

/-- The path-quality statistics (source `interface RouteStats`). -/
structure RouteStats where
  numEdges : ℕ
  totalLength : ℝ
  directDistance : ℝ

/-- Euclidean length of one traversed segment, the summand of the source's
`reduce` in the statistics computation. -/
noncomputable def edgeLength (edge : RouteEdge) : ℝ :=
  Real.sqrt (((edge.x2 - edge.x1 : ℚ) : ℝ) ^ 2 + ((edge.y2 - edge.y1 : ℚ) : ℝ) ^ 2)

/-- The statistics computed by the source on arrival: edge count, summed
per-edge lengths (a left fold starting from 0, as `reduce(..., 0)`), and
straight-line distance from the first edge's start to the last edge's end.
The source only evaluates this on the just-appended, hence non-empty, edge
list; the unreachable empty case yields a zero direct distance. -/
noncomputable def computeStats (edges : List RouteEdge) : RouteStats :=
  { numEdges := edges.length
    totalLength := edges.foldl (fun sum edge => sum + edgeLength edge) 0
    directDistance :=
      match edges.head?, edges.getLast? with
      | some f, some l =>
          Real.sqrt (((f.x1 - l.x2 : ℚ) : ℝ) ^ 2 + ((f.y1 - l.y2 : ℚ) : ℝ) ^ 2)
      | _, _ => 0 }

/-- The React component's state relevant to the routing core: the `useState`
cells `nodes`, `packet`, `routeEdges`, `lastRouteStats`, `finalMessage`,
`strategy` and the `simulationStarted` ref. -/
structure SimState where
  nodes : List Node
  packet : Option Packet
  routeEdges : List RouteEdge
  lastRouteStats : Option RouteStats
  finalMessage : Option String
  strategy : Strategy
  simulationStarted : Bool

def lostMessage : String := "Paquet perdu : aucun voisin trouvé."
def arrivedMessage : String := "Le paquet est arrivé à destination !"
def resetMessage : String := "Le chemin a été réinitialisé en raison d'un déplacement."
def insufficientActiveMessage : String :=
  "Il faut au moins deux nœuds actifs pour démarrer le routage."
def noDestinationMessage : String := "Aucun nœud destination trouvé pour la couleur "

/-- The edge appended by `simulateRoutingStep` once the hop from `current` to
`next` completes; its color is the packet destination's color. -/
def mkEdge (current next : Node) (color : String) : RouteEdge :=
  { x1 := current.x, y1 := current.y, x2 := next.x, y2 := next.y,
    startId := current.id, endId := next.id, color := color }

/-- One step of the source's `simulateRoutingStep`, decoupled from the
animation: query `getNextNode`; on `null`, report the packet lost and discard
it; otherwise append the traversed edge and either finish (computing the
statistics when the hop's endpoint is the destination) or advance the packet.
With no packet in flight the source never invokes the step, so the state is
returned unchanged. -/
noncomputable def stepSim (neighborsOf : Node → List Node) (k : ℕ)
    (s : SimState) : SimState :=
  match s.packet with
  | none => s
  | some p =>
    match getNextNode s.nodes s.strategy s.routeEdges neighborsOf
        p.currentNode p.destination k with
    | none =>
        { s with finalMessage := some lostMessage, packet := none,
                 simulationStarted := false }
    | some next =>
        let newEdges := s.routeEdges ++ [mkEdge p.currentNode next p.destination.color]
        if next.id = p.destination.id then
          { s with routeEdges := newEdges,
                   lastRouteStats := some (computeStats newEdges),
                   finalMessage := some arrivedMessage,
                   packet := none,
                   simulationStarted := false }
        else
          { s with routeEdges := newEdges,
                   packet := some { currentNode := next, destination := p.destination } }

/-- The source's `startRoutingSimulation`.  The two `Math.random()` draws are
modelled by the injected indices `i` and `j` taken modulo the respective list
lengths (the source's `Math.floor(Math.random()*length)` is always in
bounds, so the out-of-bounds arms are unreachable). -/
def startRoutingSimulation (s : SimState) (i j : ℕ) : SimState :=
  let activeNodes := s.nodes.filter (fun n => n.color != inactiveColor)
  if activeNodes.length < 2 then
    { s with finalMessage := some insufficientActiveMessage }
  else
    match activeNodes[i % activeNodes.length]? with
    | none => s
    | some source =>
      let candidates := activeNodes.filter
        (fun n => n.color == source.color && n.id != source.id)
      if candidates.length = 0 then
        { s with finalMessage := some (noDestinationMessage ++ source.color) }
      else
        match candidates[j % candidates.length]? with
        | none => s
        | some destination =>
            { s with finalMessage := some "",
                     routeEdges := [],
                     lastRouteStats := none,
                     packet := some { currentNode := source, destination := destination },
                     simulationStarted := false }

/-- The source's `updateNodePosition`: clamp the requested coordinates inside
the canvas, move every node carrying the identifier, and, when a traversed
edge touches that identifier, reset the route, the statistics and the packet
with a reset notice. -/
def updateNodePosition (s : SimState) (id : ℕ) (x y : ℚ) : SimState :=
  let clampedX := max baseRadius (min x (svgWidth - baseRadius))
  let clampedY := max baseRadius (min y (svgHeight - baseRadius))
  let newNodes := s.nodes.map
    (fun n => if n.id = id then { n with x := clampedX, y := clampedY } else n)
  if s.routeEdges.any (fun edge => edge.startId == id || edge.endId == id) then
    { s with nodes := newNodes,
             routeEdges := [],
             lastRouteStats := none,
             finalMessage := some resetMessage,
             packet := none,
             simulationStarted := false }
  else
    { s with nodes := newNodes }

theorem dist2_nonneg (a b : Node) : 0 ≤ dist2 a b := by
  unfold dist2
  exact add_nonneg (mul_self_nonneg _) (mul_self_nonneg _)

theorem distance_lt_distance_iff (a b c d : Node) :
    distance a b < distance c d ↔ dist2 a b < dist2 c d := by
  unfold distance
  rw [Real.sqrt_lt_sqrt_iff (by exact_mod_cast dist2_nonneg a b)]
  exact_mod_cast Iff.rfl

theorem distance_le_distance_iff (a b c d : Node) :
    distance a b ≤ distance c d ↔ dist2 a b ≤ dist2 c d := by
  unfold distance
  rw [Real.sqrt_le_sqrt_iff (by exact_mod_cast dist2_nonneg c d)]
  exact_mod_cast Iff.rfl

theorem selectClosest_eq_argmin (destination : Node) (candidates : List Node) :
    selectClosest destination candidates =
      candidates.argmin (fun c => dist2 c destination) := by
  unfold selectClosest List.argmin
  apply List.foldl_ext
  intro best c _
  cases best <;> simp [List.argAux]

theorem selectSmallestJump_eq_argmin (current destination : Node)
    (candidates : List Node) :
    selectSmallestJump current destination candidates =
      (candidates.filter
        (fun candidate => dist2 candidate destination < dist2 current destination)).argmin
        (fun c => dist2 current c) := by
  unfold selectSmallestJump
  generalize (candidates.filter
    (fun candidate => dist2 candidate destination < dist2 current destination)) = l
  cases l with
  | nil => simp
  | cons h0 t =>
      rw [if_neg (by simp)]
      unfold List.argmin
      apply List.foldl_ext
      intro best c _
      cases best <;> simp [List.argAux]

/-- A left fold of Mathlib's `argAux` started from `some h` is the plain
pairwise fold started from `h`. -/
theorem foldl_argAux_some {α : Type} (r : α → α → Prop) [DecidableRel r]
    (t : List α) (h : α) :
    t.foldl (List.argAux r) (some h) =
      some (t.foldl (fun best cur => if r cur best then cur else best) h) := by
  induction t generalizing h with
  | nil => rfl
  | cons c cs ih =>
      simp only [List.foldl_cons]
      have harg : List.argAux r (some h) c =
          some (if r c h then c else h) := by
        simp [List.argAux, apply_ite some]
      rw [harg, ih]

/-- The source's `reduce` keeping the element with strictly smaller key is
Mathlib's `argmin` of the non-empty list. -/
theorem reduce_min_eq_argmin {α β : Type} [Preorder β]
    [DecidableRel fun a b : β => a < b] (f : α → β) (h : α) (t : List α) :
    some (t.foldl (fun best cur => if f cur < f best then cur else best) h) =
      List.argmin f (h :: t) := by
  unfold List.argmin
  rw [List.foldl_cons]
  have : List.argAux (fun b c => f b < f c) none h = some h := rfl
  rw [this, foldl_argAux_some]

/-- Two consecutive traversed segments are linked: the second starts where
(and at the node where) the first ends. -/
def linked (a b : RouteEdge) : Prop :=
  a.x2 = b.x1 ∧ a.y2 = b.y1 ∧ a.endId = b.startId

instance : DecidableRel linked := fun a b =>
  decidable_of_iff (a.x2 = b.x1 ∧ a.y2 = b.y1 ∧ a.endId = b.startId) Iff.rfl

/-- Run invariant: the traversed segments form a continuous path, and the
in-flight packet (if any) sits at the end point of the last segment. -/
def RouteOk (s : SimState) : Prop :=
  List.Chain' linked s.routeEdges ∧
  ∀ p e, s.packet = some p → s.routeEdges.getLast? = some e →
    e.x2 = p.currentNode.x ∧ e.y2 = p.currentNode.y ∧ e.endId = p.currentNode.id

/-- The start point of a traversed segment, as a point of the plane. -/
noncomputable def startPt (e : RouteEdge) : ℂ :=
  ⟨(e.x1 : ℝ), (e.y1 : ℝ)⟩

/-- The end point of a traversed segment, as a point of the plane. -/
noncomputable def endPt (e : RouteEdge) : ℂ :=
  ⟨(e.x2 : ℝ), (e.y2 : ℝ)⟩

theorem edgeLength_eq_abs (e : RouteEdge) :
    edgeLength e = Complex.abs (endPt e - startPt e) := by
  unfold edgeLength endPt startPt
  rw [Complex.abs_apply, Complex.normSq_apply]
  congr 1
  simp only [Complex.sub_re, Complex.sub_im]
  push_cast
  ring

/-- The running total of the statistics' length fold, split off for reuse. -/
noncomputable def pathLen (edges : List RouteEdge) : ℝ :=
  edges.foldl (fun sum edge => sum + edgeLength edge) 0

theorem computeStats_totalLength (edges : List RouteEdge) :
    (computeStats edges).totalLength = pathLen edges := rfl

theorem foldl_edgeLength_shift (edges : List RouteEdge) (a : ℝ) :
    edges.foldl (fun sum edge => sum + edgeLength edge) a = a + pathLen edges := by
  induction edges generalizing a with
  | nil => simp [pathLen]
  | cons e es ih =>
      simp only [List.foldl_cons, pathLen] at *
      rw [ih, ih (0 + edgeLength e)]
      ring

theorem pathLen_cons (e : RouteEdge) (es : List RouteEdge) :
    pathLen (e :: es) = edgeLength e + pathLen es := by
  conv_lhs => rw [pathLen]
  rw [List.foldl_cons, foldl_edgeLength_shift]
  ring

theorem pathLen_eq_sum (edges : List RouteEdge) :
    pathLen edges = (edges.map edgeLength).sum := by
  induction edges with
  | nil => simp [pathLen]
  | cons e es ih => rw [pathLen_cons, List.map_cons, List.sum_cons, ih]

theorem linked_endPt_eq (a b : RouteEdge) (h : linked a b) : endPt a = startPt b := by
  obtain ⟨h1, h2, _⟩ := h
  unfold endPt startPt
  rw [h1, h2]

/-- Triangle inequality along a continuous path: the straight-line distance
from the first segment's start to the last segment's end is at most the sum
of the segment lengths. -/
theorem pathLen_ge_direct :
    ∀ edges : List RouteEdge, List.Chain' linked edges →
      ∀ f l : RouteEdge, edges.head? = some f → edges.getLast? = some l →
        Complex.abs (startPt f - endPt l) ≤ pathLen edges
  | [], _, f, _, hf, _ => by simp at hf
  | [e], _, f, l, hf, hl => by
      simp only [List.head?_cons, Option.some.injEq] at hf
      simp only [List.getLast?_singleton, Option.some.injEq] at hl
      subst hf; subst hl
      rw [pathLen_cons, pathLen, List.foldl_nil, add_zero,
        edgeLength_eq_abs, (Complex.abs).map_sub]
  | e :: e₂ :: rest, hchain, f, l, hf, hl => by
      simp only [List.head?_cons, Option.some.injEq] at hf
      subst hf
      rw [List.getLast?_cons_cons] at hl
      rw [List.chain'_cons] at hchain
      obtain ⟨hlink, hchain'⟩ := hchain
      have ih := pathLen_ge_direct (e₂ :: rest) hchain' e₂ l rfl hl
      have tri := (Complex.abs).sub_le (startPt e) (endPt e) (endPt l)
      rw [(Complex.abs).map_sub (startPt e) (endPt e), ← edgeLength_eq_abs,
        linked_endPt_eq e e₂ hlink] at tri
      rw [pathLen_cons]
      linarith

/-- The source's `reduce` keeping the element with strictly larger key is
Mathlib's `argmax` of the non-empty list. -/
theorem reduce_max_eq_argmax {α β : Type} [Preorder β]
    [DecidableRel fun a b : β => a < b] (f : α → β) (h : α) (t : List α) :
    some (t.foldl (fun best cur => if f best < f cur then cur else best) h) =
      List.argmax f (h :: t) := by
  unfold List.argmax
  rw [List.foldl_cons]
  have : List.argAux (fun b c => f c < f b) none h = some h := rfl
  rw [this, foldl_argAux_some]

theorem getNextNode_strategy_eq (nodes : List Node) (strategy : Strategy)
    (routeEdges : List RouteEdge) (neighborsOf : Node → List Node)
    (current destination : Node) (k : ℕ)
    (h3 : 3 ≤ nodes.length) (hne : neighborsOf current ≠ []) :
    getNextNode nodes strategy routeEdges neighborsOf current destination k =
      match strategy with
      | .closestToDestination => selectClosest destination (neighborsOf current)
      | .smallestJump => selectSmallestJump current destination (neighborsOf current)
      | .angleClosest => selectAngleClosest current destination (neighborsOf current)
      | .firstLeft => selectFirstLeft current destination (neighborsOf current)
      | .random => selectRandom current routeEdges (neighborsOf current) k := by
  unfold getNextNode
  rw [if_neg (by omega), if_neg (by simpa using hne)]

/-- C1: with at least three nodes and a non-empty neighbor set, the
`smallestJump` strategy returns a neighbor only if it is strictly closer to
the destination than the current node, and among all strictly-closer
neighbors it has minimal distance from the current node; if no neighbor is
strictly closer, the strategy returns `none`. -/
theorem smallestJump_spec (nodes : List Node) (routeEdges : List RouteEdge)
    (neighborsOf : Node → List Node) (current destination : Node) (k : ℕ)
    (h3 : 3 ≤ nodes.length) (hne : neighborsOf current ≠ []) :
    (∀ chosen : Node,
        getNextNode nodes .smallestJump routeEdges neighborsOf
          current destination k = some chosen →
        chosen ∈ neighborsOf current ∧
        distance chosen destination < distance current destination ∧
        ∀ c ∈ neighborsOf current,
          distance c destination < distance current destination →
          distance current chosen ≤ distance current c) ∧
    ((∀ c ∈ neighborsOf current,
        ¬ distance c destination < distance current destination) →
      getNextNode nodes .smallestJump routeEdges neighborsOf
        current destination k = none) := by
  rw [getNextNode_strategy_eq nodes _ routeEdges neighborsOf current destination k h3 hne]
  simp only
  rw [selectSmallestJump_eq_argmin]
  constructor
  · intro chosen hsel
    have hmem : chosen ∈ (neighborsOf current).filter
        (fun candidate => dist2 candidate destination < dist2 current destination) :=
      List.argmin_mem hsel
    rw [List.mem_filter] at hmem
    obtain ⟨hmem, hlt⟩ := hmem
    rw [decide_eq_true_eq] at hlt
    refine ⟨hmem, (distance_lt_distance_iff _ _ _ _).mpr hlt, ?_⟩
    intro c hc hclt
    rw [distance_lt_distance_iff] at hclt
    rw [distance_le_distance_iff]
    exact List.le_of_mem_argmin
      (by rw [List.mem_filter]; exact ⟨hc, by simpa using hclt⟩) hsel
  · intro hnone
    have hfil : (neighborsOf current).filter
        (fun candidate => dist2 candidate destination < dist2 current destination) = [] := by
      rw [List.filter_eq_nil_iff]
      intro c hc
      have := hnone c hc
      rw [distance_lt_distance_iff] at this
      simpa using this
    rw [hfil]
    rfl

def nodeA : Node := { id := 1, x := 100, y := 100, color := "red" }
def nodeB : Node := { id := 2, x := 200, y := 100, color := "red" }
def nodeC : Node := { id := 3, x := 150, y := 200, color := "grey" }
def testNodes : List Node := [nodeA, nodeB, nodeC]

theorem smallestJump_spec_witness :
    3 ≤ testNodes.length ∧ (fun _ : Node => [nodeB, nodeC]) nodeA ≠ [] ∧
    ((∀ chosen : Node,
        getNextNode testNodes .smallestJump [] (fun _ => [nodeB, nodeC])
          nodeA nodeB 0 = some chosen →
        chosen ∈ (fun _ : Node => [nodeB, nodeC]) nodeA ∧
        distance chosen nodeB < distance nodeA nodeB ∧
        ∀ c ∈ (fun _ : Node => [nodeB, nodeC]) nodeA,
          distance c nodeB < distance nodeA nodeB →
          distance nodeA chosen ≤ distance nodeA c) ∧
    ((∀ c ∈ (fun _ : Node => [nodeB, nodeC]) nodeA,
        ¬ distance c nodeB < distance nodeA nodeB) →
      getNextNode testNodes .smallestJump [] (fun _ => [nodeB, nodeC])
        nodeA nodeB 0 = none)) :=
  ⟨by decide, by decide,
    smallestJump_spec testNodes [] (fun _ => [nodeB, nodeC]) nodeA nodeB 0
      (by decide) (by decide)⟩

/-- C2: with at least three nodes and a non-empty neighbor set, the
`closestToDestination` strategy returns a neighbor whose Euclidean distance
to the destination is minimal; among ties the first neighbor in enumeration
order is returned; and the result does not depend on the injected random
draw (determinism). -/
theorem closestToDestination_spec (nodes : List Node) (routeEdges : List RouteEdge)
    (neighborsOf : Node → List Node) (current destination : Node) (k : ℕ)
    (h3 : 3 ≤ nodes.length) (hne : neighborsOf current ≠ []) :
    ∃ chosen : Node,
      getNextNode nodes .closestToDestination routeEdges neighborsOf
        current destination k = some chosen ∧
      chosen ∈ neighborsOf current ∧
      (∀ c ∈ neighborsOf current,
        distance chosen destination ≤ distance c destination) ∧
      (∀ c ∈ neighborsOf current,
        distance c destination ≤ distance chosen destination →
        (neighborsOf current).indexOf chosen ≤ (neighborsOf current).indexOf c) ∧
      (∀ k₂ : ℕ,
        getNextNode nodes .closestToDestination routeEdges neighborsOf
          current destination k =
        getNextNode nodes .closestToDestination routeEdges neighborsOf
          current destination k₂) := by
  rw [getNextNode_strategy_eq nodes _ routeEdges neighborsOf current destination k h3 hne]
  simp only
  rw [selectClosest_eq_argmin]
  rcases hsel : (neighborsOf current).argmin (fun c => dist2 c destination) with _ | chosen
  · rw [List.argmin_eq_none] at hsel
    exact absurd hsel hne
  · refine ⟨chosen, rfl, List.argmin_mem hsel, ?_, ?_, ?_⟩
    · intro c hc
      rw [distance_le_distance_iff]
      exact List.le_of_mem_argmin hc hsel
    · intro c hc hle
      rw [distance_le_distance_iff] at hle
      exact List.index_of_argmin hsel hc hle
    · intro k₂
      rw [getNextNode_strategy_eq nodes _ routeEdges neighborsOf current destination k₂ h3 hne]
      simp only
      rw [selectClosest_eq_argmin, hsel]

theorem closestToDestination_spec_witness :
    3 ≤ testNodes.length ∧ (fun _ : Node => [nodeB, nodeC]) nodeA ≠ [] ∧
    ∃ chosen : Node,
      getNextNode testNodes .closestToDestination [] (fun _ => [nodeB, nodeC])
        nodeA nodeB 0 = some chosen ∧
      chosen ∈ (fun _ : Node => [nodeB, nodeC]) nodeA ∧
      (∀ c ∈ (fun _ : Node => [nodeB, nodeC]) nodeA,
        distance chosen nodeB ≤ distance c nodeB) ∧
      (∀ c ∈ (fun _ : Node => [nodeB, nodeC]) nodeA,
        distance c nodeB ≤ distance chosen nodeB →
        ((fun _ : Node => [nodeB, nodeC]) nodeA).indexOf chosen ≤
          ((fun _ : Node => [nodeB, nodeC]) nodeA).indexOf c) ∧
      (∀ k₂ : ℕ,
        getNextNode testNodes .closestToDestination [] (fun _ => [nodeB, nodeC])
          nodeA nodeB 0 =
        getNextNode testNodes .closestToDestination [] (fun _ => [nodeB, nodeC])
          nodeA nodeB k₂) :=
  ⟨by decide, by decide,
    closestToDestination_spec testNodes [] (fun _ => [nodeB, nodeC]) nodeA nodeB 0
      (by decide) (by decide)⟩

/-- C4: with at least three nodes, the `random` strategy never returns a
neighbor whose connecting edge to the current node already appears in the
traversed-edge history (in either direction); if every neighbor's connecting
edge has been traversed, it returns `none`. -/
theorem random_spec (nodes : List Node) (routeEdges : List RouteEdge)
    (neighborsOf : Node → List Node) (current destination : Node) (k : ℕ)
    (h3 : 3 ≤ nodes.length) :
    (∀ chosen : Node,
        getNextNode nodes .random routeEdges neighborsOf
          current destination k = some chosen →
        chosen ∈ neighborsOf current ∧
        ∀ e ∈ routeEdges,
          ¬((e.startId = current.id ∧ e.endId = chosen.id) ∨
            (e.startId = chosen.id ∧ e.endId = current.id))) ∧
    ((∀ c ∈ neighborsOf current, ∃ e ∈ routeEdges,
        (e.startId = current.id ∧ e.endId = c.id) ∨
        (e.startId = c.id ∧ e.endId = current.id)) →
      getNextNode nodes .random routeEdges neighborsOf
        current destination k = none) := by
  unfold getNextNode
  rw [if_neg (by omega)]
  by_cases hlen : (neighborsOf current).length = 0
  · rw [if_pos hlen]
    refine ⟨?_, fun _ => rfl⟩
    intro chosen h
    cases h
  · rw [if_neg hlen]
    simp only
    unfold selectRandom
    constructor
    · intro chosen hsel
      by_cases hval : ((neighborsOf current).filter (fun candidate =>
          !(routeEdges.any (fun edge =>
            (edge.startId == current.id && edge.endId == candidate.id) ||
            (edge.startId == candidate.id && edge.endId == current.id))))).length = 0
      · rw [if_pos hval] at hsel
        cases hsel
      · rw [if_neg hval] at hsel
        have hmem := List.getElem?_mem hsel
        rw [List.mem_filter] at hmem
        obtain ⟨hmem, hcond⟩ := hmem
        refine ⟨hmem, ?_⟩
        intro e he hbad
        rw [Bool.not_eq_true', List.any_eq_false] at hcond
        apply hcond e he
        simp only [Bool.or_eq_true, Bool.and_eq_true, beq_iff_eq]
        tauto
    · intro hall
      have hfil : ((neighborsOf current).filter (fun candidate =>
          !(routeEdges.any (fun edge =>
            (edge.startId == current.id && edge.endId == candidate.id) ||
            (edge.startId == candidate.id && edge.endId == current.id))))) = [] := by
        rw [List.filter_eq_nil_iff]
        intro c hc
        obtain ⟨e, he, hcase⟩ := hall c hc
        have hany : (routeEdges.any (fun edge =>
            (edge.startId == current.id && edge.endId == c.id) ||
            (edge.startId == c.id && edge.endId == current.id))) = true := by
          rw [List.any_eq_true]
          refine ⟨e, he, ?_⟩
          simp only [Bool.or_eq_true, Bool.and_eq_true, beq_iff_eq]
          tauto
        simp [hany]
      rw [hfil]
      rfl

def usedEdgeAB : RouteEdge :=
  { x1 := 100, y1 := 100, x2 := 200, y2 := 100,
    startId := 1, endId := 2, color := "red" }

theorem random_spec_witness :
    3 ≤ testNodes.length ∧
    ((∀ chosen : Node,
        getNextNode testNodes .random [usedEdgeAB] (fun _ => [nodeB])
          nodeA nodeB 0 = some chosen →
        chosen ∈ (fun _ : Node => [nodeB]) nodeA ∧
        ∀ e ∈ [usedEdgeAB],
          ¬((e.startId = nodeA.id ∧ e.endId = chosen.id) ∨
            (e.startId = chosen.id ∧ e.endId = nodeA.id))) ∧
    ((∀ c ∈ (fun _ : Node => [nodeB]) nodeA, ∃ e ∈ [usedEdgeAB],
        (e.startId = nodeA.id ∧ e.endId = c.id) ∨
        (e.startId = c.id ∧ e.endId = nodeA.id)) →
      getNextNode testNodes .random [usedEdgeAB] (fun _ => [nodeB])
        nodeA nodeB 0 = none)) :=
  ⟨by decide,
    random_spec testNodes [usedEdgeAB] (fun _ => [nodeB]) nodeA nodeB 0 (by decide)⟩

theorem normalizeAngle_mem (θ : ℝ) (h1 : -(2 * Real.pi) < θ) (h2 : θ < 2 * Real.pi) :
    -Real.pi < normalizeAngle θ ∧ normalizeAngle θ ≤ Real.pi := by
  have hpi := Real.pi_pos
  unfold normalizeAngle
  by_cases hc1 : θ ≤ -Real.pi
  · rw [if_pos hc1]
    constructor <;> linarith
  · rw [if_neg hc1]
    push_neg at hc1
    by_cases hc2 : θ > Real.pi
    · rw [if_pos hc2]
      constructor <;> linarith
    · rw [if_neg hc2]
      push_neg at hc2
      exact ⟨hc1, hc2⟩

theorem relativeAngle_mem (current destination candidate : Node) :
    -Real.pi < relativeAngle current destination candidate ∧
    relativeAngle current destination candidate ≤ Real.pi := by
  unfold relativeAngle atan2
  have hb1 := Complex.neg_pi_lt_arg
    (⟨((destination.x - current.x : ℚ) : ℝ), ((destination.y - current.y : ℚ) : ℝ)⟩ : ℂ)
  have hb2 := Complex.arg_le_pi
    (⟨((destination.x - current.x : ℚ) : ℝ), ((destination.y - current.y : ℚ) : ℝ)⟩ : ℂ)
  have hc1 := Complex.neg_pi_lt_arg
    (⟨((candidate.x - current.x : ℚ) : ℝ), ((candidate.y - current.y : ℚ) : ℝ)⟩ : ℂ)
  have hc2 := Complex.arg_le_pi
    (⟨((candidate.x - current.x : ℚ) : ℝ), ((candidate.y - current.y : ℚ) : ℝ)⟩ : ℂ)
  exact normalizeAngle_mem _ (by linarith) (by linarith)

theorem selectFirstLeft_eq (current destination : Node) (candidates : List Node) :
    selectFirstLeft current destination candidates =
      match ((candidates.map
          (fun candidate => (candidate, relativeAngle current destination candidate))).filter
            (fun c => decide (0 < c.2))) with
      | best :: rest =>
          some ((rest.foldl
            (fun best currentItem =>
              if currentItem.2 < best.2 then currentItem else best) best).1)
      | [] =>
          match candidates.map
              (fun candidate => (candidate, relativeAngle current destination candidate)) with
          | best :: rest =>
              some ((rest.foldl
                (fun best currentItem =>
                  if best.2 < currentItem.2 then currentItem else best) best).1)
          | [] => none := rfl

/-- C5: with at least three nodes and a non-empty neighbor set, the
`firstLeft` strategy returns some neighbor; every neighbor's relative angle
is normalized into `(-π, π]`; if some neighbor has a strictly positive
relative angle, the returned one has a positive relative angle that is
minimal among the positive ones; otherwise the returned one has the largest
relative angle among all neighbors. -/
theorem firstLeft_spec (nodes : List Node) (routeEdges : List RouteEdge)
    (neighborsOf : Node → List Node) (current destination : Node) (k : ℕ)
    (h3 : 3 ≤ nodes.length) (hne : neighborsOf current ≠ []) :
    ∃ chosen : Node,
      getNextNode nodes .firstLeft routeEdges neighborsOf
        current destination k = some chosen ∧
      chosen ∈ neighborsOf current ∧
      (∀ c ∈ neighborsOf current,
        -Real.pi < relativeAngle current destination c ∧
        relativeAngle current destination c ≤ Real.pi) ∧
      ((∃ c ∈ neighborsOf current, 0 < relativeAngle current destination c) →
        0 < relativeAngle current destination chosen ∧
        ∀ c ∈ neighborsOf current, 0 < relativeAngle current destination c →
          relativeAngle current destination chosen ≤ relativeAngle current destination c) ∧
      ((∀ c ∈ neighborsOf current, ¬ 0 < relativeAngle current destination c) →
        ∀ c ∈ neighborsOf current,
          relativeAngle current destination c ≤ relativeAngle current destination chosen) := by
  rw [getNextNode_strategy_eq nodes _ routeEdges neighborsOf current destination k h3 hne]
  simp only
  rw [selectFirstLeft_eq]
  rcases hfil : (((neighborsOf current).map
      (fun candidate => (candidate, relativeAngle current destination candidate))).filter
        (fun c => decide (0 < c.2))) with _ | ⟨h0, t⟩
  · rcases hcand : neighborsOf current with _ | ⟨c0, cs⟩
    · exact absurd hcand hne
    · rw [hcand] at hfil
      rw [hfil, List.map_cons]
      dsimp only
      have hmax := reduce_max_eq_argmax (Prod.snd (α := Node) (β := ℝ))
        (c0, relativeAngle current destination c0)
        (cs.map (fun candidate => (candidate, relativeAngle current destination candidate)))
      set m := ((cs.map
          (fun candidate => (candidate, relativeAngle current destination candidate))).foldl
          (fun best currentItem => if best.2 < currentItem.2 then currentItem else best)
          (c0, relativeAngle current destination c0)) with hm
      have hmem : m ∈
          ((c0, relativeAngle current destination c0) ::
            cs.map (fun candidate => (candidate, relativeAngle current destination candidate))) :=
        List.argmax_mem hmax.symm
      have hmem2 : m ∈ (c0 :: cs).map
          (fun candidate => (candidate, relativeAngle current destination candidate)) := by
        rw [List.map_cons]
        exact hmem
      rw [List.mem_map] at hmem2
      obtain ⟨c, hcmem, hceq⟩ := hmem2
      have hfst : c = m.1 := congrArg Prod.fst hceq
      have hrel : relativeAngle current destination m.1 = m.2 := by
        rw [← hfst]
        exact congrArg Prod.snd hceq
      refine ⟨m.1, rfl, hfst ▸ hcmem, ?_, ?_, ?_⟩
      · intro c hc
        exact relativeAngle_mem current destination c
      · intro hpos
        obtain ⟨c1, hc1, hc1pos⟩ := hpos
        exfalso
        have hcf : ((c1, relativeAngle current destination c1) : Node × ℝ) ∈
            (((c0 :: cs).map
              (fun candidate => (candidate, relativeAngle current destination candidate))).filter
                (fun c => decide (0 < c.2))) := by
          rw [List.mem_filter]
          exact ⟨List.mem_map_of_mem _ hc1, by simpa using hc1pos⟩
        rw [hfil] at hcf
        cases hcf
      · intro _ c1 hc1
        have hcm := List.mem_map_of_mem
          (fun candidate => (candidate, relativeAngle current destination candidate)) hc1
        rw [List.map_cons] at hcm
        have hle := List.le_of_mem_argmax hcm hmax.symm
        rw [hrel]
        exact hle
  · rw [hfil]
    dsimp only
    have hmin := reduce_min_eq_argmin (Prod.snd (α := Node) (β := ℝ)) h0 t
    set m := (t.foldl
        (fun best currentItem => if currentItem.2 < best.2 then currentItem else best) h0)
      with hm
    have hmemf : m ∈ (h0 :: t) := List.argmin_mem hmin.symm
    rw [← hfil, List.mem_filter] at hmemf
    obtain ⟨hmemmap, hposm⟩ := hmemf
    rw [decide_eq_true_eq] at hposm
    rw [List.mem_map] at hmemmap
    obtain ⟨c, hcmem, hceq⟩ := hmemmap
    have hfst : c = m.1 := congrArg Prod.fst hceq
    have hrel : relativeAngle current destination m.1 = m.2 := by
      rw [← hfst]
      exact congrArg Prod.snd hceq
    refine ⟨m.1, rfl, hfst ▸ hcmem, ?_, ?_, ?_⟩
    · intro c1 hc1
      exact relativeAngle_mem current destination c1
    · intro _
      rw [hrel]
      refine ⟨hposm, ?_⟩
      intro c1 hc1 hc1pos
      have hcf : ((c1, relativeAngle current destination c1) : Node × ℝ) ∈ (h0 :: t) := by
        rw [← hfil, List.mem_filter]
        exact ⟨List.mem_map_of_mem _ hc1, by simpa using hc1pos⟩
      exact List.le_of_mem_argmin hcf hmin.symm
    · intro hnone
      exfalso
      have hh0 : h0 ∈ (h0 :: t) := List.mem_cons_self h0 t
      rw [← hfil, List.mem_filter] at hh0
      obtain ⟨hh0m, hh0pos⟩ := hh0
      rw [List.mem_map] at hh0m
      obtain ⟨c1, hcmem2, hceq2⟩ := hh0m
      rw [decide_eq_true_eq] at hh0pos
      apply hnone c1 hcmem2
      have hsnd : relativeAngle current destination c1 = h0.2 := congrArg Prod.snd hceq2
      rw [hsnd]
      exact hh0pos

theorem firstLeft_spec_witness :
    3 ≤ testNodes.length ∧ (fun _ : Node => [nodeB, nodeC]) nodeA ≠ [] ∧
    ∃ chosen : Node,
      getNextNode testNodes .firstLeft [] (fun _ => [nodeB, nodeC])
        nodeA nodeB 0 = some chosen ∧
      chosen ∈ (fun _ : Node => [nodeB, nodeC]) nodeA ∧
      (∀ c ∈ (fun _ : Node => [nodeB, nodeC]) nodeA,
        -Real.pi < relativeAngle nodeA nodeB c ∧
        relativeAngle nodeA nodeB c ≤ Real.pi) ∧
      ((∃ c ∈ (fun _ : Node => [nodeB, nodeC]) nodeA,
          0 < relativeAngle nodeA nodeB c) →
        0 < relativeAngle nodeA nodeB chosen ∧
        ∀ c ∈ (fun _ : Node => [nodeB, nodeC]) nodeA,
          0 < relativeAngle nodeA nodeB c →
          relativeAngle nodeA nodeB chosen ≤ relativeAngle nodeA nodeB c) ∧
      ((∀ c ∈ (fun _ : Node => [nodeB, nodeC]) nodeA,
          ¬ 0 < relativeAngle nodeA nodeB c) →
        ∀ c ∈ (fun _ : Node => [nodeB, nodeC]) nodeA,
          relativeAngle nodeA nodeB c ≤ relativeAngle nodeA nodeB chosen) :=
  ⟨by decide, by decide,
    firstLeft_spec testNodes [] (fun _ => [nodeB, nodeC]) nodeA nodeB 0
      (by decide) (by decide)⟩

theorem computeStats_directDistance_eq (edges : List RouteEdge) (f l : RouteEdge)
    (hf : edges.head? = some f) (hl : edges.getLast? = some l) :
    (computeStats edges).directDistance = Complex.abs (startPt f - endPt l) := by
  unfold computeStats
  simp only [hf, hl]
  rw [Complex.abs_apply, Complex.normSq_apply]
  congr 1
  simp only [Complex.sub_re, Complex.sub_im]
  unfold startPt endPt
  push_cast
  ring

theorem computeStats_directDistance_nonneg (edges : List RouteEdge) :
    0 ≤ (computeStats edges).directDistance := by
  unfold computeStats
  rcases edges.head? with _ | f <;> rcases edges.getLast? with _ | l <;>
    first
      | exact le_refl 0
      | exact Real.sqrt_nonneg _

/-- C3: when a step arrives (the chosen neighbor is the destination), the
recorded statistics of the appended edge sequence satisfy: the edge count is
the length of the sequence and is at least 1, the total length is the sum of
the per-edge Euclidean lengths, the direct distance is the Euclidean
distance from the first edge's start point to the last edge's end point, the
total length is at least the direct distance, and the stretch ratio is at
least 1 whenever the direct distance is nonzero; when the step does not
arrive (ordinary hop or lost packet), the stored statistics are unchanged. -/
theorem stats_spec (neighborsOf : Node → List Node) (k : ℕ) (s : SimState)
    (p : Packet) (hp : s.packet = some p) (hok : RouteOk s) :
    (∀ next : Node,
      getNextNode s.nodes s.strategy s.routeEdges neighborsOf
        p.currentNode p.destination k = some next →
      next.id = p.destination.id →
      (stepSim neighborsOf k s).lastRouteStats =
        some (computeStats
          (s.routeEdges ++ [mkEdge p.currentNode next p.destination.color])) ∧
      ∀ edges : List RouteEdge,
        edges = s.routeEdges ++ [mkEdge p.currentNode next p.destination.color] →
        (computeStats edges).numEdges = edges.length ∧
        1 ≤ (computeStats edges).numEdges ∧
        (computeStats edges).totalLength = (edges.map edgeLength).sum ∧
        (∀ f l : RouteEdge, edges.head? = some f → edges.getLast? = some l →
          (computeStats edges).directDistance = Complex.abs (startPt f - endPt l)) ∧
        (computeStats edges).directDistance ≤ (computeStats edges).totalLength ∧
        ((computeStats edges).directDistance ≠ 0 →
          1 ≤ (computeStats edges).totalLength / (computeStats edges).directDistance)) ∧
    (∀ next : Node,
      getNextNode s.nodes s.strategy s.routeEdges neighborsOf
        p.currentNode p.destination k = some next →
      next.id ≠ p.destination.id →
      (stepSim neighborsOf k s).lastRouteStats = s.lastRouteStats) ∧
    (getNextNode s.nodes s.strategy s.routeEdges neighborsOf
        p.currentNode p.destination k = none →
      (stepSim neighborsOf k s).lastRouteStats = s.lastRouteStats) := by
  obtain ⟨hchain, hlast⟩ := hok
  refine ⟨?_, ?_, ?_⟩
  · intro next hnext hid
    have hstep : (stepSim neighborsOf k s).lastRouteStats =
        some (computeStats
          (s.routeEdges ++ [mkEdge p.currentNode next p.destination.color])) := by
      unfold stepSim
      rw [hp]
      dsimp only
      rw [hnext]
      dsimp only
      rw [if_pos hid]
    refine ⟨hstep, ?_⟩
    intro edges hedges
    have hne : edges ≠ [] := by
      rw [hedges]
      simp
    have hchain2 : List.Chain' linked edges := by
      rw [hedges]
      rw [List.chain'_append]
      refine ⟨hchain, List.chain'_singleton _, ?_⟩
      intro e he y hy
      rw [Option.mem_def] at he
      simp only [List.head?_cons, Option.mem_def, Option.some.injEq] at hy
      subst hy
      have hli := hlast p e hp he
      exact ⟨hli.1, hli.2.1, hli.2.2⟩
    obtain ⟨f, hf⟩ : ∃ f, edges.head? = some f := by
      rcases edges with _ | ⟨e0, es⟩
      · exact absurd rfl hne
      · exact ⟨e0, rfl⟩
    obtain ⟨l, hl⟩ : ∃ l, edges.getLast? = some l := by
      rcases hgl : edges.getLast? with _ | l
      · rw [List.getLast?_eq_none_iff] at hgl
        exact absurd hgl hne
      · exact ⟨l, rfl⟩
    have htri : (computeStats edges).directDistance ≤ (computeStats edges).totalLength := by
      rw [computeStats_directDistance_eq edges f l hf hl, computeStats_totalLength]
      exact pathLen_ge_direct edges hchain2 f l hf hl
    refine ⟨rfl, ?_, ?_, ?_, htri, ?_⟩
    · show 1 ≤ edges.length
      rcases edges with _ | ⟨e0, es⟩
      · exact absurd rfl hne
      · simp
    · rw [computeStats_totalLength, pathLen_eq_sum]
    · intro f2 l2 hf2 hl2
      exact computeStats_directDistance_eq edges f2 l2 hf2 hl2
    · intro hdne
      have hdpos : 0 < (computeStats edges).directDistance :=
        lt_of_le_of_ne (computeStats_directDistance_nonneg edges) (Ne.symm hdne)
      rw [one_le_div hdpos]
      exact htri
  · intro next hnext hid
    unfold stepSim
    rw [hp]
    dsimp only
    rw [hnext]
    dsimp only
    rw [if_neg hid]
  · intro hnone
    unfold stepSim
    rw [hp]
    dsimp only
    rw [hnone]

def statsState : SimState :=
  { nodes := testNodes,
    packet := some { currentNode := nodeA, destination := nodeB },
    routeEdges := [],
    lastRouteStats := none,
    finalMessage := none,
    strategy := .closestToDestination,
    simulationStarted := true }

theorem stats_spec_witness :
    statsState.packet = some { currentNode := nodeA, destination := nodeB } ∧
    RouteOk statsState ∧
    ((∀ next : Node,
      getNextNode testNodes .closestToDestination [] (fun _ => [nodeB])
        nodeA nodeB 0 = some next →
      next.id = nodeB.id →
      (stepSim (fun _ => [nodeB]) 0 statsState).lastRouteStats =
        some (computeStats ([] ++ [mkEdge nodeA next nodeB.color])) ∧
      ∀ edges : List RouteEdge,
        edges = [] ++ [mkEdge nodeA next nodeB.color] →
        (computeStats edges).numEdges = edges.length ∧
        1 ≤ (computeStats edges).numEdges ∧
        (computeStats edges).totalLength = (edges.map edgeLength).sum ∧
        (∀ f l : RouteEdge, edges.head? = some f → edges.getLast? = some l →
          (computeStats edges).directDistance = Complex.abs (startPt f - endPt l)) ∧
        (computeStats edges).directDistance ≤ (computeStats edges).totalLength ∧
        ((computeStats edges).directDistance ≠ 0 →
          1 ≤ (computeStats edges).totalLength / (computeStats edges).directDistance)) ∧
    (∀ next : Node,
      getNextNode testNodes .closestToDestination [] (fun _ => [nodeB])
        nodeA nodeB 0 = some next →
      next.id ≠ nodeB.id →
      (stepSim (fun _ => [nodeB]) 0 statsState).lastRouteStats =
        statsState.lastRouteStats) ∧
    (getNextNode testNodes .closestToDestination [] (fun _ => [nodeB])
        nodeA nodeB 0 = none →
      (stepSim (fun _ => [nodeB]) 0 statsState).lastRouteStats =
        statsState.lastRouteStats)) :=
  ⟨rfl, ⟨List.chain'_nil, by intro p e hp h; simp [statsState] at h⟩,
    stats_spec (fun _ => [nodeB]) 0 statsState
      { currentNode := nodeA, destination := nodeB } rfl
      ⟨List.chain'_nil, by intro p e hp h; simp [statsState] at h⟩⟩

theorem startRoutingSimulation_eq (s : SimState) (i j : ℕ) :
    startRoutingSimulation s i j =
      if (s.nodes.filter (fun n => n.color != inactiveColor)).length < 2 then
        { s with finalMessage := some insufficientActiveMessage }
      else
        match (s.nodes.filter (fun n => n.color != inactiveColor))[i %
            (s.nodes.filter (fun n => n.color != inactiveColor)).length]? with
        | none => s
        | some source =>
          if ((s.nodes.filter (fun n => n.color != inactiveColor)).filter
              (fun n => n.color == source.color && n.id != source.id)).length = 0 then
            { s with finalMessage := some (noDestinationMessage ++ source.color) }
          else
            match ((s.nodes.filter (fun n => n.color != inactiveColor)).filter
                (fun n => n.color == source.color && n.id != source.id))[j %
                ((s.nodes.filter (fun n => n.color != inactiveColor)).filter
                  (fun n => n.color == source.color && n.id != source.id)).length]? with
            | none => s
            | some destination =>
                { s with finalMessage := some "",
                         routeEdges := [],
                         lastRouteStats := none,
                         packet := some { currentNode := source, destination := destination },
                         simulationStarted := false } := rfl

/-- C6: starting from an idle state, if fewer than 2 active nodes exist, or
the randomly chosen source has no other active node of the same color, the
start fails with the corresponding reported reason, creates no packet, and
leaves the accumulated route and statistics untouched. -/
theorem start_fail_spec (s : SimState) (i j : ℕ) (hidle : s.packet = none) :
    ((s.nodes.filter (fun n => n.color != inactiveColor)).length < 2 →
      (startRoutingSimulation s i j).packet = none ∧
      (startRoutingSimulation s i j).finalMessage = some insufficientActiveMessage ∧
      (startRoutingSimulation s i j).routeEdges = s.routeEdges ∧
      (startRoutingSimulation s i j).lastRouteStats = s.lastRouteStats) ∧
    (∀ source : Node,
      2 ≤ (s.nodes.filter (fun n => n.color != inactiveColor)).length →
      (s.nodes.filter (fun n => n.color != inactiveColor))[i %
        (s.nodes.filter (fun n => n.color != inactiveColor)).length]? = some source →
      ((s.nodes.filter (fun n => n.color != inactiveColor)).filter
        (fun n => n.color == source.color && n.id != source.id)).length = 0 →
      (startRoutingSimulation s i j).packet = none ∧
      (startRoutingSimulation s i j).finalMessage =
        some (noDestinationMessage ++ source.color) ∧
      (startRoutingSimulation s i j).routeEdges = s.routeEdges ∧
      (startRoutingSimulation s i j).lastRouteStats = s.lastRouteStats) := by
  constructor
  · intro hlt
    rw [startRoutingSimulation_eq, if_pos hlt]
    exact ⟨hidle, rfl, rfl, rfl⟩
  · intro source hge hsource hcand
    rw [startRoutingSimulation_eq, if_neg (by omega), hsource]
    dsimp only
    rw [if_pos hcand]
    exact ⟨hidle, rfl, rfl, rfl⟩

def idleState : SimState :=
  { nodes := [nodeA, nodeC],
    packet := none,
    routeEdges := [],
    lastRouteStats := none,
    finalMessage := none,
    strategy := .closestToDestination,
    simulationStarted := false }

theorem start_fail_spec_witness :
    idleState.packet = none ∧
    (((idleState.nodes.filter (fun n => n.color != inactiveColor)).length < 2 →
      (startRoutingSimulation idleState 0 0).packet = none ∧
      (startRoutingSimulation idleState 0 0).finalMessage =
        some insufficientActiveMessage ∧
      (startRoutingSimulation idleState 0 0).routeEdges = idleState.routeEdges ∧
      (startRoutingSimulation idleState 0 0).lastRouteStats =
        idleState.lastRouteStats) ∧
    (∀ source : Node,
      2 ≤ (idleState.nodes.filter (fun n => n.color != inactiveColor)).length →
      (idleState.nodes.filter (fun n => n.color != inactiveColor))[0 %
        (idleState.nodes.filter (fun n => n.color != inactiveColor)).length]? =
          some source →
      ((idleState.nodes.filter (fun n => n.color != inactiveColor)).filter
        (fun n => n.color == source.color && n.id != source.id)).length = 0 →
      (startRoutingSimulation idleState 0 0).packet = none ∧
      (startRoutingSimulation idleState 0 0).finalMessage =
        some (noDestinationMessage ++ source.color) ∧
      (startRoutingSimulation idleState 0 0).routeEdges = idleState.routeEdges ∧
      (startRoutingSimulation idleState 0 0).lastRouteStats =
        idleState.lastRouteStats)) :=
  ⟨rfl, start_fail_spec idleState 0 0 rfl⟩

def activeRunState : SimState :=
  { nodes := testNodes,
    packet := some { currentNode := nodeB, destination := nodeA },
    routeEdges := [usedEdgeAB],
    lastRouteStats := none,
    finalMessage := none,
    strategy := .closestToDestination,
    simulationStarted := true }

/-- C7 counterexample: in a state with an active run (a packet in flight and
a non-empty accumulated route), a start request is not rejected: it creates
a fresh packet, clears the accumulated route, and reports no rejection
reason (the final message is the empty string set on success). -/
theorem start_while_active_cex :
    activeRunState.packet ≠ none ∧
    (startRoutingSimulation activeRunState 0 0).packet =
      some { currentNode := nodeA, destination := nodeB } ∧
    (startRoutingSimulation activeRunState 0 0).routeEdges = [] ∧
    (startRoutingSimulation activeRunState 0 0).finalMessage = some "" :=
  ⟨by decide, by decide, by decide, by decide⟩

/-- C7 amended: a start request while a run is active is processed exactly
as from idle — when the preconditions hold it replaces the in-flight packet
with a freshly chosen source/destination pair, clears the accumulated route
and the statistics, and reports no rejection reason. -/
theorem start_while_active_amended (s : SimState) (i j : ℕ)
    (source destination : Node)
    (hactive : s.packet ≠ none)
    (hge : 2 ≤ (s.nodes.filter (fun n => n.color != inactiveColor)).length)
    (hsource : (s.nodes.filter (fun n => n.color != inactiveColor))[i %
      (s.nodes.filter (fun n => n.color != inactiveColor)).length]? = some source)
    (hdest : ((s.nodes.filter (fun n => n.color != inactiveColor)).filter
        (fun n => n.color == source.color && n.id != source.id))[j %
        ((s.nodes.filter (fun n => n.color != inactiveColor)).filter
          (fun n => n.color == source.color && n.id != source.id)).length]? =
      some destination) :
    (startRoutingSimulation s i j).packet =
      some { currentNode := source, destination := destination } ∧
    (startRoutingSimulation s i j).routeEdges = [] ∧
    (startRoutingSimulation s i j).lastRouteStats = none ∧
    (startRoutingSimulation s i j).finalMessage = some "" := by
  have hlen0 : ¬ ((s.nodes.filter (fun n => n.color != inactiveColor)).filter
      (fun n => n.color == source.color && n.id != source.id)).length = 0 := by
    intro h0
    rw [List.length_eq_zero] at h0
    rw [h0] at hdest
    simp at hdest
  rw [startRoutingSimulation_eq, if_neg (by omega), hsource]
  dsimp only
  rw [if_neg hlen0, hdest]
  exact ⟨rfl, rfl, rfl, rfl⟩

theorem start_while_active_amended_witness :
    activeRunState.packet ≠ none ∧
    2 ≤ (activeRunState.nodes.filter (fun n => n.color != inactiveColor)).length ∧
    ((startRoutingSimulation activeRunState 0 0).packet =
      some { currentNode := nodeA, destination := nodeB } ∧
    (startRoutingSimulation activeRunState 0 0).routeEdges = [] ∧
    (startRoutingSimulation activeRunState 0 0).lastRouteStats = none ∧
    (startRoutingSimulation activeRunState 0 0).finalMessage = some "") :=
  ⟨by decide, by decide,
    start_while_active_amended activeRunState 0 0 nodeA nodeB
      (by decide) (by decide) (by decide) (by decide)⟩

/-- C8: with fewer than 3 nodes, next-hop selection yields `none` for every
strategy, current node, destination, traversed history and random draw; and
a step taken in such a state loses the packet: the packet is discarded, the
lost message is reported, and route and statistics are left as they were. -/
theorem undersized_graph_spec (s : SimState) (neighborsOf : Node → List Node)
    (k : ℕ) (p : Packet) (hsmall : s.nodes.length < 3) (hp : s.packet = some p) :
    (∀ (strategy : Strategy) (routeEdges : List RouteEdge)
        (nf : Node → List Node) (current destination : Node) (k2 : ℕ),
      getNextNode s.nodes strategy routeEdges nf current destination k2 = none) ∧
    (stepSim neighborsOf k s).packet = none ∧
    (stepSim neighborsOf k s).finalMessage = some lostMessage ∧
    (stepSim neighborsOf k s).routeEdges = s.routeEdges ∧
    (stepSim neighborsOf k s).lastRouteStats = s.lastRouteStats := by
  have hnone : ∀ (strategy : Strategy) (routeEdges : List RouteEdge)
      (nf : Node → List Node) (current destination : Node) (k2 : ℕ),
      getNextNode s.nodes strategy routeEdges nf current destination k2 = none := by
    intro strategy routeEdges nf current destination k2
    unfold getNextNode
    rw [if_pos hsmall]
  have hstep : stepSim neighborsOf k s =
      { s with finalMessage := some lostMessage, packet := none,
               simulationStarted := false } := by
    unfold stepSim
    rw [hp]
    dsimp only
    rw [hnone]
  rw [hstep]
  exact ⟨hnone, rfl, rfl, rfl, rfl⟩

def twoNodeState : SimState :=
  { nodes := [nodeA, nodeB],
    packet := some { currentNode := nodeA, destination := nodeB },
    routeEdges := [],
    lastRouteStats := none,
    finalMessage := none,
    strategy := .closestToDestination,
    simulationStarted := true }

theorem undersized_graph_spec_witness :
    twoNodeState.nodes.length < 3 ∧
    twoNodeState.packet = some { currentNode := nodeA, destination := nodeB } ∧
    ((∀ (strategy : Strategy) (routeEdges : List RouteEdge)
        (nf : Node → List Node) (current destination : Node) (k2 : ℕ),
      getNextNode twoNodeState.nodes strategy routeEdges nf
        current destination k2 = none) ∧
    (stepSim (fun _ => []) 0 twoNodeState).packet = none ∧
    (stepSim (fun _ => []) 0 twoNodeState).finalMessage = some lostMessage ∧
    (stepSim (fun _ => []) 0 twoNodeState).routeEdges = twoNodeState.routeEdges ∧
    (stepSim (fun _ => []) 0 twoNodeState).lastRouteStats =
      twoNodeState.lastRouteStats) :=
  ⟨by decide, rfl,
    undersized_graph_spec twoNodeState (fun _ => []) 0
      { currentNode := nodeA, destination := nodeB } (by decide) rfl⟩

theorem chain'_append_linked (edges : List RouteEdge) (e2 : RouteEdge)
    (hchain : List.Chain' linked edges)
    (hlink : ∀ e, edges.getLast? = some e → linked e e2) :
    List.Chain' linked (edges ++ [e2]) := by
  rw [List.chain'_append]
  refine ⟨hchain, List.chain'_singleton _, ?_⟩
  intro a ha z hz
  rw [Option.mem_def] at ha
  simp only [List.head?_cons, Option.mem_def, Option.some.injEq] at hz
  subst hz
  exact hlink a ha

theorem startRoutingSimulation_cases (s : SimState) (i j : ℕ) :
    (∃ msg, startRoutingSimulation s i j = { s with finalMessage := some msg }) ∨
    startRoutingSimulation s i j = s ∨
    (∃ source destination : Node,
      startRoutingSimulation s i j =
        { s with finalMessage := some "",
                 routeEdges := [],
                 lastRouteStats := none,
                 packet := some { currentNode := source, destination := destination },
                 simulationStarted := false }) := by
  rw [startRoutingSimulation_eq]
  by_cases h1 : (s.nodes.filter (fun n => n.color != inactiveColor)).length < 2
  · rw [if_pos h1]
    exact Or.inl ⟨_, rfl⟩
  · rw [if_neg h1]
    rcases hsrc : (s.nodes.filter (fun n => n.color != inactiveColor))[i %
        (s.nodes.filter (fun n => n.color != inactiveColor)).length]? with _ | source
    · exact Or.inr (Or.inl rfl)
    · dsimp only
      by_cases h2 : ((s.nodes.filter (fun n => n.color != inactiveColor)).filter
          (fun n => n.color == source.color && n.id != source.id)).length = 0
      · rw [if_pos h2]
        exact Or.inl ⟨_, rfl⟩
      · rw [if_neg h2]
        rcases hds : ((s.nodes.filter (fun n => n.color != inactiveColor)).filter
            (fun n => n.color == source.color && n.id != source.id))[j %
            ((s.nodes.filter (fun n => n.color != inactiveColor)).filter
              (fun n => n.color == source.color && n.id != source.id)).length]?
          with _ | destination
        · exact Or.inr (Or.inl rfl)
        · exact Or.inr (Or.inr ⟨source, destination, rfl⟩)

/-- The clamped node list produced by `updateNodePosition`, split off so the
reformulation below stays readable. -/
def clampNodes (nodes : List Node) (id : ℕ) (x y : ℚ) : List Node :=
  nodes.map (fun n =>
    if n.id = id then
      { n with
        x := max baseRadius (min x (svgWidth - baseRadius)),
        y := max baseRadius (min y (svgHeight - baseRadius)) }
    else n)

theorem updateNodePosition_eq (s : SimState) (id : ℕ) (x y : ℚ) :
    updateNodePosition s id x y =
      if s.routeEdges.any (fun edge => edge.startId == id || edge.endId == id) then
        { s with
          nodes := clampNodes s.nodes id x y,
          routeEdges := [],
          lastRouteStats := none,
          finalMessage := some resetMessage,
          packet := none,
          simulationStarted := false }
      else
        { s with nodes := clampNodes s.nodes id x y } := rfl

/-- C9: under the run invariant `RouteOk` — the route is a continuous chain
and the packet sits at its end — (1) a start that creates a packet resets
the route to empty, (2) the invariant is preserved by `startRoutingSimulation`
and by `stepSim`, (3) a step that appends a segment appends one whose start
point and node equal the previous segment's end, and (4) relocating a node
appearing on the route clears the route and discards the packet. -/
theorem route_invariants_spec (s : SimState) (neighborsOf : Node → List Node)
    (i j k nid : ℕ) (x y : ℚ) (hok : RouteOk s) :
    (s.packet = none → ∀ p' : Packet,
      (startRoutingSimulation s i j).packet = some p' →
      (startRoutingSimulation s i j).routeEdges = []) ∧
    RouteOk (startRoutingSimulation s i j) ∧
    RouteOk (stepSim neighborsOf k s) ∧
    (∀ (p : Packet) (next : Node), s.packet = some p →
      getNextNode s.nodes s.strategy s.routeEdges neighborsOf
        p.currentNode p.destination k = some next →
      (stepSim neighborsOf k s).routeEdges =
        s.routeEdges ++ [mkEdge p.currentNode next p.destination.color] ∧
      ∀ e : RouteEdge, s.routeEdges.getLast? = some e →
        linked e (mkEdge p.currentNode next p.destination.color)) ∧
    ((∃ e ∈ s.routeEdges, e.startId = nid ∨ e.endId = nid) →
      (updateNodePosition s nid x y).routeEdges = [] ∧
      (updateNodePosition s nid x y).packet = none) := by
  obtain ⟨hchainS, hlastS⟩ := hok
  refine ⟨?_, ?_, ?_, ?_, ?_⟩
  · intro hidle p' hp'
    rcases startRoutingSimulation_cases s i j with ⟨msg, heq⟩ | heq | ⟨src, dst, heq⟩
    · rw [heq] at hp'
      dsimp only at hp'
      rw [hidle] at hp'
      cases hp'
    · rw [heq] at hp'
      rw [hidle] at hp'
      cases hp'
    · rw [heq]
  · rcases startRoutingSimulation_cases s i j with ⟨msg, heq⟩ | heq | ⟨src, dst, heq⟩
    · rw [heq]
      exact ⟨hchainS, fun p e hpe hg => hlastS p e hpe hg⟩
    · rw [heq]
      exact ⟨hchainS, hlastS⟩
    · rw [heq]
      refine ⟨List.chain'_nil, ?_⟩
      intro p e _ hg
      simp at hg
  · rcases hsp : s.packet with _ | p0
    · have hs : stepSim neighborsOf k s = s := by
        unfold stepSim
        rw [hsp]
      rw [hs]
      exact ⟨hchainS, hlastS⟩
    · rcases hnext : getNextNode s.nodes s.strategy s.routeEdges neighborsOf
          p0.currentNode p0.destination k with _ | next
      · have hs : stepSim neighborsOf k s =
            { s with finalMessage := some lostMessage, packet := none,
                     simulationStarted := false } := by
          unfold stepSim
          rw [hsp]
          dsimp only
          rw [hnext]
        rw [hs]
        refine ⟨hchainS, ?_⟩
        intro p e hpe _
        cases hpe
      · by_cases harr : next.id = p0.destination.id
        · have hs : stepSim neighborsOf k s =
              { s with
                routeEdges :=
                  s.routeEdges ++ [mkEdge p0.currentNode next p0.destination.color],
                lastRouteStats := some (computeStats
                  (s.routeEdges ++ [mkEdge p0.currentNode next p0.destination.color])),
                finalMessage := some arrivedMessage,
                packet := none,
                simulationStarted := false } := by
            unfold stepSim
            rw [hsp]
            dsimp only
            rw [hnext]
            dsimp only
            rw [if_pos harr]
          rw [hs]
          refine ⟨chain'_append_linked _ _ hchainS (fun e hg => hlastS p0 e hsp hg), ?_⟩
          intro p e hpe _
          cases hpe
        · have hs : stepSim neighborsOf k s =
              { s with
                routeEdges :=
                  s.routeEdges ++ [mkEdge p0.currentNode next p0.destination.color],
                packet := some { currentNode := next, destination := p0.destination } } := by
            unfold stepSim
            rw [hsp]
            dsimp only
            rw [hnext]
            dsimp only
            rw [if_neg harr]
          rw [hs]
          refine ⟨chain'_append_linked _ _ hchainS (fun e hg => hlastS p0 e hsp hg), ?_⟩
          intro p e hpe hg
          dsimp only at hpe hg
          rw [Option.some.injEq] at hpe
          rw [List.getLast?_concat] at hg
          rw [Option.some.injEq] at hg
          subst hpe
          subst hg
          exact ⟨rfl, rfl, rfl⟩
  · intro p next hp hnext
    by_cases harr : next.id = p.destination.id
    · have hs : stepSim neighborsOf k s =
          { s with
            routeEdges := s.routeEdges ++ [mkEdge p.currentNode next p.destination.color],
            lastRouteStats := some (computeStats
              (s.routeEdges ++ [mkEdge p.currentNode next p.destination.color])),
            finalMessage := some arrivedMessage,
            packet := none,
            simulationStarted := false } := by
        unfold stepSim
        rw [hp]
        dsimp only
        rw [hnext]
        dsimp only
        rw [if_pos harr]
      rw [hs]
      exact ⟨rfl, fun e hg => hlastS p e hp hg⟩
    · have hs : stepSim neighborsOf k s =
          { s with
            routeEdges := s.routeEdges ++ [mkEdge p.currentNode next p.destination.color],
            packet := some { currentNode := next, destination := p.destination } } := by
        unfold stepSim
        rw [hp]
        dsimp only
        rw [hnext]
        dsimp only
        rw [if_neg harr]
      rw [hs]
      exact ⟨rfl, fun e hg => hlastS p e hp hg⟩
  · intro hex
    obtain ⟨e, he, hcase⟩ := hex
    have hany : (s.routeEdges.any
        (fun edge => edge.startId == nid || edge.endId == nid)) = true := by
      rw [List.any_eq_true]
      refine ⟨e, he, ?_⟩
      simp only [Bool.or_eq_true, beq_iff_eq]
      tauto
    rw [updateNodePosition_eq, if_pos hany]
    exact ⟨rfl, rfl⟩

theorem routeOk_activeRunState : RouteOk activeRunState := by
  refine ⟨?_, ?_⟩
  · exact List.chain'_singleton _
  · intro p e hpe hg
    simp only [activeRunState, Option.some.injEq, List.getLast?_singleton] at hpe hg
    subst hpe
    subst hg
    exact ⟨rfl, rfl, rfl⟩

theorem route_invariants_spec_witness :
    RouteOk activeRunState ∧
    ((activeRunState.packet = none → ∀ p' : Packet,
      (startRoutingSimulation activeRunState 0 0).packet = some p' →
      (startRoutingSimulation activeRunState 0 0).routeEdges = []) ∧
    RouteOk (startRoutingSimulation activeRunState 0 0) ∧
    RouteOk (stepSim (fun _ => [nodeA]) 0 activeRunState) ∧
    (∀ (p : Packet) (next : Node), activeRunState.packet = some p →
      getNextNode activeRunState.nodes activeRunState.strategy
        activeRunState.routeEdges (fun _ => [nodeA])
        p.currentNode p.destination 0 = some next →
      (stepSim (fun _ => [nodeA]) 0 activeRunState).routeEdges =
        activeRunState.routeEdges ++
          [mkEdge p.currentNode next p.destination.color] ∧
      ∀ e : RouteEdge, activeRunState.routeEdges.getLast? = some e →
        linked e (mkEdge p.currentNode next p.destination.color)) ∧
    ((∃ e ∈ activeRunState.routeEdges, e.startId = 1 ∨ e.endId = 1) →
      (updateNodePosition activeRunState 1 1000 (-50)).routeEdges = [] ∧
      (updateNodePosition activeRunState 1 1000 (-50)).packet = none)) :=
  ⟨routeOk_activeRunState,
    route_invariants_spec activeRunState (fun _ => [nodeA]) 0 0 0 1 1000 (-50)
      routeOk_activeRunState⟩

/-- C10: after `updateNodePosition`, every node carrying the moved identifier
has coordinates clamped into `[baseRadius, svgWidth - baseRadius] ×
[baseRadius, svgHeight - baseRadius]` whatever coordinates were requested,
and every node with a different identifier is unchanged (same entry at the
same position of the node list). -/
theorem updateNodePosition_spec (s : SimState) (id : ℕ) (x y : ℚ) :
    (∀ n ∈ (updateNodePosition s id x y).nodes, n.id = id →
      baseRadius ≤ n.x ∧ n.x ≤ svgWidth - baseRadius ∧
      baseRadius ≤ n.y ∧ n.y ≤ svgHeight - baseRadius) ∧
    (updateNodePosition s id x y).nodes.length = s.nodes.length ∧
    (∀ (idx : ℕ) (h : idx < s.nodes.length),
      (s.nodes.get ⟨idx, h⟩).id ≠ id →
      (updateNodePosition s id x y).nodes[idx]? = some (s.nodes.get ⟨idx, h⟩)) := by
  have hxw : baseRadius ≤ svgWidth - baseRadius := by
    unfold baseRadius svgWidth
    norm_num
  have hyh : baseRadius ≤ svgHeight - baseRadius := by
    unfold baseRadius svgHeight
    norm_num
  have hnodes : (updateNodePosition s id x y).nodes = clampNodes s.nodes id x y := by
    rw [updateNodePosition_eq]
    by_cases h : s.routeEdges.any (fun edge => edge.startId == id || edge.endId == id)
    · rw [if_pos h]
    · rw [if_neg h]
  rw [hnodes]
  refine ⟨?_, ?_, ?_⟩
  · intro n hn hnid
    unfold clampNodes at hn
    rw [List.mem_map] at hn
    obtain ⟨n0, hn0, heq⟩ := hn
    by_cases h0 : n0.id = id
    · rw [if_pos h0] at heq
      subst heq
      refine ⟨le_max_left _ _, max_le hxw (min_le_right _ _),
        le_max_left _ _, max_le hyh (min_le_right _ _)⟩
    · rw [if_neg h0] at heq
      subst heq
      exact absurd hnid h0
  · unfold clampNodes
    exact List.length_map _ _
  · intro idx h hid
    unfold clampNodes
    rw [List.getElem?_map, List.getElem?_eq_getElem h]
    simp only [Option.map_some']
    rw [if_neg ?hne]
    case hne =>
      intro hc
      exact hid (by simpa using hc)
    rfl

theorem updateNodePosition_spec_witness :
    (∀ n ∈ (updateNodePosition idleState 1 1000 (-50)).nodes, n.id = 1 →
      baseRadius ≤ n.x ∧ n.x ≤ svgWidth - baseRadius ∧
      baseRadius ≤ n.y ∧ n.y ≤ svgHeight - baseRadius) ∧
    (updateNodePosition idleState 1 1000 (-50)).nodes.length =
      idleState.nodes.length ∧
    (∀ (idx : ℕ) (h : idx < idleState.nodes.length),
      (idleState.nodes.get ⟨idx, h⟩).id ≠ 1 →
      (updateNodePosition idleState 1 1000 (-50)).nodes[idx]? =
        some (idleState.nodes.get ⟨idx, h⟩)) :=
  updateNodePosition_spec idleState 1 1000 (-50)
